import Mathlib

/-!
Verification of the graph-model core of `stormspotter/ingest/models.py`.

The Python module transforms one raw JSON record (an Azure AD object or an
ARM resource) into one node plus a list of directed relationships.  This file
shallowly embeds the relevant functions:

* `PyVal` models JSON-like Python values (and `DynamicObject` trees, whose
  dicts become `PyVal.obj`);
* `pySplitChars`/`subOccurs` model `str.split(sep)` and the `in` substring
  test used by the `subscription`/`resourcegroup` accessors;
* `mkRelationship` models pydantic validation of the `Relationship` model
  (required `str` fields reject `None`; the `properties` pre-validator turns
  a `DynamicObject` into its `__dict__` and anything else into `None`);
* `aadRelationships` models `AADObject.__init__`'s owner/member loops
  followed by `self._relationships.extend(self.__relationships__())`;
* `armConstruct` models `ARMResource.__init__`: the extraction-field loop,
  the default resource-group `Contains` edge, then the hook;
* `keyVaultHook` models `KeyVault.__relationships__`;
* `convert_to_list` models the `tags` pre-validator.

Python exceptions are modelled with `Except PyErr`; an uncaught exception
during `__init__` is a construction failure.
-/

namespace Stormspotter

/-- A JSON-like Python value.  `obj` models both plain dicts and
`DynamicObject` instances (whose attributes are exactly the dict keys). -/
inductive PyVal where
  | none : PyVal
  | bool (b : Bool) : PyVal
  | int (n : Int) : PyVal
  | str (s : String) : PyVal
  | list (xs : List PyVal) : PyVal
  | obj (fields : List (String × PyVal)) : PyVal

/-- The Python exceptions that the embedded code can raise. -/
inductive PyErr where
  | validationError : PyErr
  | attributeError : PyErr
  | indexError : PyErr
  | typeError : PyErr
  deriving DecidableEq, Repr

/-- `RelationLabels` enumeration from the source; `auto()` gives each member
its own name as string value. -/
inductive RelationLabels where
  | AttachedTo | Authenticates | ConnectedTo | Contains | Exposes
  | HasAccessPolicies | HasRbac | HasRole | Manages | MemberOf
  | Owns | RepresentedBy | Trusts
  deriving DecidableEq, Repr

/-- ASCII uppercase of one character, as Python `str.upper` acts on the
ASCII class names appearing in `_labels`. -/
def asciiUpper (c : Char) : Char :=
  if 'a' ≤ c ∧ c ≤ 'z' then Char.ofNat (c.toNat - 32) else c

/-- Python `str.upper()` restricted to ASCII input. -/
def pyUpper (s : String) : String :=
  ⟨s.data.map asciiUpper⟩

/-- Model of `Node._labels`: `None` for `Node` itself, a single uppercase
label for the two root categories, otherwise the class name and its direct
parent class name, both uppercased. -/
def pyLabels (name parent : String) : Option (List String) :=
  if name = "Node" then Option.none
  else if name = "AADObject" ∨ name = "ARMResource" then some [pyUpper name]
  else some [pyUpper name, pyUpper parent]

/-- Python substring test `sub in s`: some suffix of `s` starts with `sub`. -/
def subOccurs (sub : List Char) : List Char → Bool
  | [] => sub.isPrefixOf []
  | c :: cs => sub.isPrefixOf (c :: cs) || subOccurs sub cs

/-- Python `sub in s` on strings. -/
def pyContains (s sub : String) : Bool :=
  subOccurs sub.data s.data

/-- Fuel-driven worker for Python `str.split(sep)` with a non-empty
separator: scan left to right, cut at each leftmost separator occurrence.
The fuel is always called with at least the length of the scanned list, so
the fuel-exhausted branch is unreachable. -/
def pySplitGo (sep : List Char) : Nat → List Char → List Char → List (List Char)
  | 0, s, acc => [acc.reverse ++ s]
  | _ + 1, [], acc => [acc.reverse]
  | fuel + 1, c :: cs, acc =>
    if sep.isPrefixOf (c :: cs) then
      acc.reverse :: pySplitGo sep fuel (List.drop (sep.length - 1) cs) []
    else
      pySplitGo sep fuel cs (c :: acc)

/-- Python `s.split(sep)` on char lists (`sep` non-empty). -/
def pySplitChars (sep s : List Char) : List (List Char) :=
  pySplitGo sep s.length s []

/-- Python `s.split(sep)` on strings (`sep` non-empty). -/
def pySplit (sep s : String) : List String :=
  (pySplitChars sep.data s.data).map fun l => ⟨l⟩

/-- Python list indexing `l[i]` for a non-negative index: raises
`IndexError` when out of range. -/
def pyIndex (l : List α) (i : Nat) : Except PyErr α :=
  match l.get? i with
  | some v => Except.ok v
  | Option.none => Except.error PyErr.indexError

/-- Pydantic coercion of a dynamic value into a required `str` field:
strings pass through, numbers and booleans are coerced, `None`, lists and
dicts are rejected with a validation error. -/
def pyStrCoerce : PyVal → Except PyErr String
  | PyVal.str s => Except.ok s
  | PyVal.int n => Except.ok (toString n)
  | PyVal.bool b => Except.ok (if b then "True" else "False")
  | PyVal.none => Except.error PyErr.validationError
  | PyVal.list _ => Except.error PyErr.validationError
  | PyVal.obj _ => Except.error PyErr.validationError

/-- Effectful map over a list in the `Except` monad, modelling a Python
`for` loop that builds one item per iteration and propagates the first
uncaught exception out of the constructor. -/
def mapMEx (f : α → Except PyErr β) : List α → Except PyErr (List β)
  | [] => Except.ok []
  | a :: t => do
    let b ← f a
    let bs ← mapMEx f t
    Except.ok (b :: bs)

/-- The `format_properties` pre-validator of `Relationship`: a dict (or a
`DynamicObject`, via `__dict__`) passes as a plain mapping, anything else
becomes `None`. -/
def formatProperties : Option PyVal → Option (List (String × PyVal))
  | some (PyVal.obj m) => some m
  | _ => Option.none

/-- The validated `Relationship` pydantic model. -/
structure Relationship where
  source : String
  source_label : List String
  target : String
  target_label : List String
  relation : RelationLabels
  properties : Option (List (String × PyVal))

/-- Construction of a `Relationship`, including pydantic validation: the
required `str` fields `source`/`target` reject `None`, the required label
lists reject `None`, and `properties` runs through `format_properties`. -/
def mkRelationship (src : PyVal) (srcLbl : Option (List String)) (tgt : PyVal)
    (tgtLbl : Option (List String)) (rel : RelationLabels) (props : Option PyVal) :
    Except PyErr Relationship := do
  let s ← pyStrCoerce src
  let t ← pyStrCoerce tgt
  match srcLbl, tgtLbl with
  | some sl, some tl =>
    Except.ok ⟨s, sl, t, tl, rel, formatProperties props⟩
  | _, _ => Except.error PyErr.validationError

/-- One element of the `_relationships` list.  The base-class hook
`Node.__relationships__` is `yield []`, so iterating the default hook
produces one element that is a plain empty Python list, not a
`Relationship`; `emptyList` models that element. -/
inductive RelItem where
  | rel (r : Relationship) : RelItem
  | emptyList : RelItem

/-- True exactly on a `Contains` relationship item. -/
def RelItem.isContains : RelItem → Bool
  | RelItem.rel r => r.relation == RelationLabels.Contains
  | RelItem.emptyList => false

/-- The default `Node.__relationships__` hook: `yield []` yields exactly one
item, the empty list. -/
def defaultHook : Except PyErr (List RelItem) :=
  Except.ok [RelItem.emptyList]

/-- Labels of the abstract `AADObject` class, used for the opposite end of
owner/member edges. -/
def aadObjectLabels : Option (List String) :=
  pyLabels "AADObject" "Node"

/-- Labels of the `ResourceGroup` class, used as source labels of the
default `Contains` edge. -/
def resourceGroupLabels : Option (List String) :=
  pyLabels "ResourceGroup" "ARMResource"

/-- Model of `AADObject.__init__` after pydantic field validation: one
`Owns` edge per entry of `owners` with `source=self.id, target=owner`, then
one `MemberOf` edge per entry of `members` with `source=member,
target=self.id`, then the items produced by the `__relationships__` hook. -/
def aadRelationships (id : String) (selfLbl : Option (List String))
    (owners members : List String) (hook : Except PyErr (List RelItem)) :
    Except PyErr (List RelItem) := do
  let ownRels ← mapMEx (fun owner =>
    (mkRelationship (PyVal.str id) selfLbl (PyVal.str owner) aadObjectLabels
        RelationLabels.Owns Option.none).map RelItem.rel) owners
  let memRels ← mapMEx (fun member =>
    (mkRelationship (PyVal.str member) aadObjectLabels (PyVal.str id) selfLbl
        RelationLabels.MemberOf Option.none).map RelItem.rel) members
  let hs ← hook
  pure (ownRels ++ memRels ++ hs)

/-- The `subscription` property: `self.id.split("/")[2] if "subscriptions"
in self.id else None`. -/
def armSubscription (id : String) : Except PyErr (Option String) :=
  if pyContains id "subscriptions" then
    (pyIndex (pySplit "/" id) 2).map some
  else
    Except.ok Option.none

/-- The `resourcegroup` property: `self.id.split("/providers")[0] if
"providers" in self.id else None`. -/
def armResourcegroup (id : String) : Except PyErr (Option String) :=
  if pyContains id "providers" then
    (pyIndex (pySplit "/providers" id) 0).map some
  else
    Except.ok Option.none

/-- Attribute access on a dynamic value: `getattr` succeeds only on a
`DynamicObject` (a dict) that has the key; everything else raises
`AttributeError`, which callers may or may not catch. -/
def pyGetAttr (v : PyVal) (name : String) : Option PyVal :=
  match v with
  | PyVal.obj m => m.lookup name
  | _ => Option.none

/-- `operator.attrgetter(path)` applied to a `DynamicObject`: follow the
dot-separated path, `None` (that is, `AttributeError`) as soon as one hop is
missing. -/
def pathEval (m : List (String × PyVal)) (path : String) : Option PyVal :=
  go (PyVal.obj m) (pySplit "." path)
where
  go : PyVal → List String → Option PyVal
    | v, [] => some v
    | v, seg :: rest => (pyGetAttr v seg).bind fun w => go w rest

/-- The final path segment: `field.split(".")[-1]`; the split of a string is
never empty, so the negative index is total. -/
def lastSegment (f : String) : String :=
  (pySplit "." f).getLastD ""

/-- Python dict assignment `d[k] = v` on an insertion-ordered association
list: overwrite in place if the key exists, else append. -/
def dictSet (d : List (String × PyVal)) (k : String) (v : PyVal) :
    List (String × PyVal) :=
  if (d.lookup k).isSome then
    d.map fun kv => if kv.1 = k then (k, v) else kv
  else
    d ++ [(k, v)]

/-- Python dict union `d | e`: keys of `d` in order with values overridden
by `e` where present, then the keys only in `e`, in order. -/
def dictUnion (d e : List (String × PyVal)) : List (String × PyVal) :=
  (d.map fun kv => (kv.1, ((e.lookup kv.1).getD kv.2))) ++
    e.filter fun kv => (d.lookup kv.1).isNone

/-- The extraction-field loop of `ARMResource.__init__`: when `properties`
is present (a `DynamicObject` is always truthy) and `__xfields__` is
non-empty, evaluate each dotted path with `attrgetter`, any failure caught
and replaced by `None`, and store the result under the final path segment. -/
def xdictBuild (xfields : List String) (props : Option (List (String × PyVal))) :
    List (String × PyVal) :=
  match props with
  | Option.none => []
  | some m =>
    if xfields = [] then []
    else xfields.foldl (fun d f =>
      dictSet d (lastSegment f) ((pathEval m f).getD PyVal.none)) []

/-- The value passed as a relationship `source` coming from an optional
string (`self.resourcegroup` may be `None`). -/
def optStr : Option String → PyVal
  | some s => PyVal.str s
  | Option.none => PyVal.none

/-- Result of a successful `ARMResource.__init__`: the promoted extraction
fields and the `_relationships` items. -/
structure ARMBuilt where
  xdict : List (String × PyVal)
  rels : List RelItem

/-- Model of `ARMResource.__init__` after pydantic field validation: build
`__xdict__`; if `__map_to_resourcegroup__`, append one `Contains` edge with
`source=self.resourcegroup` (pydantic rejects it when that is `None`);
finally extend with the `__relationships__` hook items. -/
def armConstruct (id : String) (selfLbl : Option (List String)) (mapToRG : Bool)
    (xfields : List String) (props : Option (List (String × PyVal)))
    (hook : Except PyErr (List RelItem)) : Except PyErr ARMBuilt := do
  let xd := xdictBuild xfields props
  let base ← if mapToRG then do
      let rg ← armResourcegroup id
      let r ← mkRelationship (optStr rg) resourceGroupLabels (PyVal.str id)
        selfLbl RelationLabels.Contains Option.none
      pure [RelItem.rel r]
    else pure ([] : List RelItem)
  let hs ← hook
  pure ⟨xd, base ++ hs⟩

/-- `ARMResource.node()`: the exported flat mapping is the declared fields
minus `properties`, dict-unioned with `__xdict__` (and finally with the
`_relationships` entry, which lives under the fixed key `"_relationships"`
and is consumed separately by the exporter). -/
def armNode (declaredFields xdict : List (String × PyVal)) :
    List (String × PyVal) :=
  dictUnion declaredFields xdict

/-- The `__xfields__` class attribute of `KeyVault`. -/
def keyVaultXFields : List String :=
  ["enableSoftDelete", "softDeleteRetentionInDays", "enableRbacAuthorization",
   "enablePurgeProtection", "vaultUri"]

/-- The `__xfields__` class attribute of `StorageAccount`. -/
def storageAccountXFields : List String :=
  ["accessTier", "creationTime", "supportsHttpsTrafficOnly"]

/-- Labels of the `KeyVault` class. -/
def keyVaultLabels : Option (List String) :=
  pyLabels "KeyVault" "ARMResource"

/-- Labels of the `StorageAccount` class. -/
def storageAccountLabels : Option (List String) :=
  pyLabels "StorageAccount" "ARMResource"

/-- Model of `KeyVault.__relationships__`: iterate
`self.properties.accessPolicies` (an `AttributeError` from a missing
`properties` or a missing `accessPolicies` attribute is not caught, and
iterating a non-list raises `TypeError`), yielding one `HasAccessPolicies`
edge per policy with `source=policy.objectId`, `target=self.id`, and
`properties=policy.permissions`. -/
def keyVaultHook (id : String) (props : Option (List (String × PyVal))) :
    Except PyErr (List RelItem) :=
  match props with
  | Option.none => Except.error PyErr.attributeError
  | some p =>
    match p.lookup "accessPolicies" with
    | Option.none => Except.error PyErr.attributeError
    | some aps =>
      match aps with
      | PyVal.list pols =>
        mapMEx (fun pol => do
          let oid ← match pyGetAttr pol "objectId" with
            | some v => pure v
            | Option.none => Except.error PyErr.attributeError
          let perms ← match pyGetAttr pol "permissions" with
            | some v => pure v
            | Option.none => Except.error PyErr.attributeError
          (mkRelationship oid aadObjectLabels (PyVal.str id) keyVaultLabels
              RelationLabels.HasAccessPolicies (some perms)).map RelItem.rel) pols
      | _ => Except.error PyErr.typeError

/-- Full construction of a `KeyVault` instance after field validation. -/
def keyVaultConstruct (id : String) (props : Option (List (String × PyVal))) :
    Except PyErr ARMBuilt :=
  armConstruct id keyVaultLabels true keyVaultXFields props (keyVaultHook id props)

/-- The flattening loop body of the `tags` validator:
`[as_list.extend([k, v]) for k, v in dict_value.items()]`. -/
def tagsFlatten (l : List (String × String)) : List String :=
  l.foldl (fun acc kv => acc ++ [kv.1, kv.2]) []

/-- The `convert_to_list` pre-validator for `tags`: a falsy input (`None` or
the empty dict) becomes `None`, otherwise the alternating flat list. -/
def convert_to_list (tags : Option (List (String × String))) : Option (List String) :=
  match tags with
  | Option.none => Option.none
  | some [] => Option.none
  | some l => some (tagsFlatten l)

/-- Re-pairing of an alternating flat list, used to state that the `tags`
flattening is invertible. -/
def pairUp : List String → List (String × String)
  | k :: v :: rest => (k, v) :: pairUp rest
  | _ => []

/-- JSON encoding of one well-formed access-policy entry consisting of a
principal object id and a permission mapping, as `DynamicObject.from_dict`
produces it inside `properties.accessPolicies`. -/
def encodePolicy (pol : String × List (String × PyVal)) : PyVal :=
  PyVal.obj [("objectId", PyVal.str pol.1), ("permissions", PyVal.obj pol.2)]

/-! ## Helper lemmas about the embedded Python primitives -/

theorem mapMEx_ok {α β : Type} (f : α → Except PyErr β) (g : α → β)
    (l : List α) (h : ∀ a ∈ l, f a = Except.ok (g a)) :
    mapMEx f l = Except.ok (l.map g) := by
  induction l with
  | nil => rfl
  | cons a t ih =>
    have ha := h a (List.mem_cons_self a t)
    have ht := ih fun x hx => h x (List.mem_cons_of_mem a hx)
    simp only [mapMEx, ha, ht]
    rfl

theorem pySplitGo_fuel (sep : List Char) :
    ∀ n s acc f₁ f₂, s.length ≤ n → s.length ≤ f₁ → s.length ≤ f₂ →
      pySplitGo sep f₁ s acc = pySplitGo sep f₂ s acc := by
  intro n
  induction n with
  | zero =>
    intro s acc f₁ f₂ hn _ _
    have hs : s = [] := List.eq_nil_of_length_eq_zero (Nat.le_zero.mp hn)
    subst hs
    cases f₁ <;> cases f₂ <;> simp [pySplitGo]
  | succ n ih =>
    intro s acc f₁ f₂ hn h1 h2
    cases s with
    | nil => cases f₁ <;> cases f₂ <;> simp [pySplitGo]
    | cons c cs =>
      cases f₁ with
      | zero => simp [List.length_cons] at h1
      | succ a =>
        cases f₂ with
        | zero => simp [List.length_cons] at h2
        | succ b =>
          simp only [List.length_cons] at hn h1 h2
          simp only [pySplitGo]
          have hdl : (List.drop (sep.length - 1) cs).length ≤ cs.length := by
            simp [List.length_drop]
          cases hp : sep.isPrefixOf (c :: cs) with
          | true =>
            simp only [if_true]
            exact congrArg _ (ih _ _ a b (by omega) (by omega) (by omega))
          | false =>
            simp only [Bool.false_eq_true, if_false]
            exact ih cs (c :: acc) a b (by omega) (by omega) (by omega)

theorem pySplitGo_ne_nil (sep : List Char) :
    ∀ f s acc, ∃ h t, pySplitGo sep f s acc = h :: t := by
  intro f
  induction f with
  | zero => intro s acc; exact ⟨_, _, rfl⟩
  | succ f ih =>
    intro s acc
    cases s with
    | nil => exact ⟨_, _, rfl⟩
    | cons c cs =>
      simp only [pySplitGo]
      cases hp : sep.isPrefixOf (c :: cs) with
      | true => simp only [if_true]; exact ⟨_, _, rfl⟩
      | false =>
        simp only [Bool.false_eq_true, if_false]
        exact ih cs (c :: acc)

theorem suffix_append_cases {α : Type} {x u v : List α} (h : x <:+ u ++ v) :
    x <:+ v ∨ ∃ u₂, u₂ <:+ u ∧ u₂ ≠ [] ∧ x = u₂ ++ v := by
  obtain ⟨w, hw⟩ := h
  rcases List.append_eq_append_iff.mp hw with ⟨a, ha1, ha2⟩ | ⟨c, hc1, hc2⟩
  · cases a with
    | nil => exact Or.inl (ha2 ▸ List.suffix_rfl)
    | cons a0 a' =>
      exact Or.inr ⟨a0 :: a', ⟨w, ha1.symm⟩, by simp, ha2⟩
  · exact Or.inl ⟨c, hc2.symm⟩

theorem pySplitGo_boundary (sep : List Char) (hsep : sep ≠ []) :
    ∀ x y acc f, (x ++ sep ++ y).length ≤ f →
      (∀ x₂, x₂ <:+ x → x₂ ≠ [] → ¬ sep <+: (x₂ ++ sep ++ y)) →
      pySplitGo sep f (x ++ sep ++ y) acc =
        (acc.reverse ++ x) :: pySplitChars sep y := by
  intro x
  induction x with
  | nil =>
    intro y acc f hf H
    obtain ⟨c, sep2, hc⟩ : ∃ c sep2, sep = c :: sep2 := by
      cases sep with
      | nil => exact absurd rfl hsep
      | cons c sep2 => exact ⟨c, sep2, rfl⟩
    subst hc
    simp only [List.nil_append] at hf ⊢
    rw [List.cons_append] at hf ⊢
    cases f with
    | zero => simp [List.length_cons] at hf
    | succ g =>
      simp only [pySplitGo]
      have hpre : (c :: sep2).isPrefixOf (c :: (sep2 ++ y)) = true := by
        rw [List.isPrefixOf_iff_prefix]
        exact List.cons_prefix_cons.mpr ⟨rfl, List.prefix_append sep2 y⟩
      rw [if_pos hpre]
      have hdrop : List.drop ((c :: sep2).length - 1) (sep2 ++ y) = y := by
        simp only [List.length_cons, Nat.add_sub_cancel]
        exact List.drop_left sep2 y
      rw [hdrop]
      have hg : y.length ≤ g := by
        simp only [List.length_cons, List.length_append] at hf
        omega
      rw [pySplitGo_fuel (c :: sep2) g y [] g y.length hg hg (le_refl _)]
      simp [pySplitChars]
  | cons d x ih =>
    intro y acc f hf H
    have hx2 : ¬ (d :: x) ++ sep ++ y = [] := by simp
    rw [List.cons_append, List.cons_append] at hf ⊢
    cases f with
    | zero => simp [List.length_cons] at hf
    | succ g =>
      simp only [pySplitGo]
      have hnp : sep.isPrefixOf (d :: (x ++ sep ++ y)) = false := by
        rw [← Bool.not_eq_true, List.isPrefixOf_iff_prefix]
        intro hc
        exact H (d :: x) List.suffix_rfl (by simp)
          (by simpa [List.cons_append, List.append_assoc] using hc)
      rw [if_neg (show ¬ sep.isPrefixOf (d :: (x ++ sep ++ y)) = true by
        simp only [hnp]; exact Bool.false_ne_true)]
      have Hsub : ∀ x₂, x₂ <:+ x → x₂ ≠ [] → ¬ sep <+: (x₂ ++ sep ++ y) :=
        fun x₂ hs hne => H x₂ (hs.trans (List.suffix_cons d x)) hne
      have hg : (x ++ sep ++ y).length ≤ g := by
        simp only [List.length_cons] at hf
        omega
      rw [ih y (d :: acc) g hg Hsub]
      simp

theorem pySplitChars_boundary (sep : List Char) (hsep : sep ≠ []) (x y : List Char)
    (H : ∀ x₂, x₂ <:+ x → x₂ ≠ [] → ¬ sep <+: (x₂ ++ sep ++ y)) :
    pySplitChars sep (x ++ sep ++ y) = x :: pySplitChars sep y := by
  have := pySplitGo_boundary sep hsep x y [] (x ++ sep ++ y).length (le_refl _) H
  simpa [pySplitChars] using this

theorem pySplitChars_char (c : Char) (x y : List Char) (hx : c ∉ x) :
    pySplitChars [c] (x ++ [c] ++ y) = x :: pySplitChars [c] y := by
  refine pySplitChars_boundary [c] (by simp) x y ?_
  intro x₂ hs hne h
  cases x₂ with
  | nil => exact hne rfl
  | cons h0 t =>
    have hmem : h0 ∈ x := hs.sublist.subset (List.mem_cons_self h0 t)
    have : c = h0 := by simpa using h
    exact hx (this ▸ hmem)

theorem subOccurs_of_prefix {sub s : List Char} (h : sub <+: s) :
    subOccurs sub s = true := by
  cases s with
  | nil => simpa [subOccurs, List.isPrefixOf_iff_prefix] using h
  | cons c cs =>
    simp only [subOccurs, Bool.or_eq_true]
    exact Or.inl (List.isPrefixOf_iff_prefix.mpr h)

theorem subOccurs_cons {sub cs : List Char} (c : Char)
    (h : subOccurs sub cs = true) : subOccurs sub (c :: cs) = true := by
  simp only [subOccurs, Bool.or_eq_true]
  exact Or.inr h

theorem subOccurs_append (sub b : List Char) :
    ∀ a, subOccurs sub (a ++ (sub ++ b)) = true := by
  intro a
  induction a with
  | nil => exact subOccurs_of_prefix (List.prefix_append sub b)
  | cons c a ih => exact subOccurs_cons c ih

theorem no_prefix_through_seg {ps seg rest : List Char} (hslash : '/' ∉ ps)
    (hnp : ¬ ps <+: seg) : ¬ ps <+: (seg ++ '/' :: rest) := by
  rintro ⟨r, hr⟩
  rcases List.append_eq_append_iff.mp hr with ⟨a, ha1, _⟩ | ⟨c, hc1, hc2⟩
  · exact hnp ⟨a, ha1.symm⟩
  · cases c with
    | nil =>
      apply hnp
      simp only [List.append_nil] at hc1
      exact hc1 ▸ List.prefix_rfl
    | cons c0 c2 =>
      have hc0 : c0 = '/' := by
        rw [List.cons_append] at hc2
        exact (List.cons.injEq _ _ _ _ ▸ hc2).1.symm
      apply hslash
      rw [hc1, hc0]
      simp

theorem no_early_providers {S G : List Char} (y : List Char) (hS : '/' ∉ S) (hG : '/' ∉ G)
    (hpS : ¬ ("providers".data : List Char) <+: S)
    (hpG : ¬ ("providers".data : List Char) <+: G) :
    ∀ x₂,
      x₂ <:+ ('/' :: "subscriptions".data) ++
        (('/' :: S) ++ (('/' :: "resourceGroups".data) ++ ('/' :: G))) →
      x₂ ≠ [] → ¬ ("/providers".data : List Char) <+: (x₂ ++ "/providers".data ++ y) := by
  intro x₂ hx hne h
  have eps : ("providers".data : List Char) = 'p' :: "roviders".data := rfl
  have esub : ("subscriptions".data : List Char) = 's' :: "ubscriptions".data := rfl
  have erg : ("resourceGroups".data : List Char) = 'r' :: "esourceGroups".data := rfl
  have hslashps : '/' ∉ ("providers".data : List Char) := by decide
  rw [show ("/providers".data : List Char) = '/' :: "providers".data from rfl] at h
  rcases suffix_append_cases hx with hx1 | ⟨u, hu, hune, rfl⟩
  · rcases suffix_append_cases hx1 with hx2 | ⟨u, hu, hune, rfl⟩
    · rcases suffix_append_cases hx2 with hx3 | ⟨u, hu, hune, rfl⟩
      · rcases List.suffix_cons_iff.mp hx3 with rfl | hx4
        · simp only [List.cons_append, List.append_assoc, List.nil_append] at h
          have h2 := (List.cons_prefix_cons.mp h).2
          exact no_prefix_through_seg hslashps hpG h2
        · obtain ⟨c0, t, rfl⟩ : ∃ c0 t, x₂ = c0 :: t := by
            cases x₂ with
            | nil => exact absurd rfl hne
            | cons a b => exact ⟨a, b, rfl⟩
          simp only [List.cons_append] at h
          have hc : '/' = c0 := (List.cons_prefix_cons.mp h).1
          exact hG (hc ▸ hx4.sublist.subset (List.mem_cons_self c0 t))
      · rcases List.suffix_cons_iff.mp hu with rfl | hu2
        · simp only [List.cons_append, List.append_assoc, List.nil_append] at h
          have h2 := (List.cons_prefix_cons.mp h).2
          exact absurd (List.cons_prefix_cons.mp h2).1 (by decide)
        · obtain ⟨c0, t, rfl⟩ : ∃ c0 t, u = c0 :: t := by
            cases u with
            | nil => exact absurd rfl hune
            | cons a b => exact ⟨a, b, rfl⟩
          simp only [List.cons_append] at h
          have hc : '/' = c0 := (List.cons_prefix_cons.mp h).1
          have hmem : c0 ∈ ("resourceGroups".data : List Char) :=
            hu2.sublist.subset (List.mem_cons_self c0 t)
          rw [← hc] at hmem
          exact absurd hmem (by decide)
    · rcases List.suffix_cons_iff.mp hu with rfl | hu2
      · simp only [List.cons_append, List.append_assoc, List.nil_append] at h
        have h2 := (List.cons_prefix_cons.mp h).2
        exact no_prefix_through_seg hslashps hpS h2
      · obtain ⟨c0, t, rfl⟩ : ∃ c0 t, u = c0 :: t := by
          cases u with
          | nil => exact absurd rfl hune
          | cons a b => exact ⟨a, b, rfl⟩
        simp only [List.cons_append] at h
        have hc : '/' = c0 := (List.cons_prefix_cons.mp h).1
        exact hS (hc ▸ hu2.sublist.subset (List.mem_cons_self c0 t))
  · rcases List.suffix_cons_iff.mp hu with rfl | hu2
    · simp only [List.cons_append, List.append_assoc, List.nil_append] at h
      have h2 := (List.cons_prefix_cons.mp h).2
      exact absurd (List.cons_prefix_cons.mp h2).1 (by decide)
    · obtain ⟨c0, t, rfl⟩ : ∃ c0 t, u = c0 :: t := by
        cases u with
        | nil => exact absurd rfl hune
        | cons a b => exact ⟨a, b, rfl⟩
      simp only [List.cons_append] at h
      have hc : '/' = c0 := (List.cons_prefix_cons.mp h).1
      have hmem : c0 ∈ ("subscriptions".data : List Char) :=
        hu2.sublist.subset (List.mem_cons_self c0 t)
      rw [← hc] at hmem
      exact absurd hmem (by decide)

theorem string_mk_data (s : String) : (⟨s.data⟩ : String) = s := by
  cases s
  rfl

theorem prefixChars (S G : String) :
    ("/subscriptions/" ++ S ++ "/resourceGroups/" ++ G).data =
      ('/' :: "subscriptions".data) ++
        (('/' :: S.data) ++ (('/' :: "resourceGroups".data) ++ ('/' :: G.data))) := by
  simp only [String.data_append]
  simp [List.append_assoc, List.cons_append]

theorem idChars (S G R : String) :
    ("/subscriptions/" ++ S ++ "/resourceGroups/" ++ G ++ "/providers/" ++ R).data =
      (('/' :: "subscriptions".data) ++
        (('/' :: S.data) ++ (('/' :: "resourceGroups".data) ++ ('/' :: G.data)))) ++
        "/providers".data ++ ('/' :: R.data) := by
  simp only [String.data_append]
  simp [List.append_assoc, List.cons_append]

theorem armResourcegroup_structured (S G R : String) (hS : '/' ∉ S.data) (hG : '/' ∉ G.data)
    (hpS : ¬ ("providers".data : List Char) <+: S.data)
    (hpG : ¬ ("providers".data : List Char) <+: G.data) :
    armResourcegroup ("/subscriptions/" ++ S ++ "/resourceGroups/" ++ G ++ "/providers/" ++ R) =
      Except.ok (some ("/subscriptions/" ++ S ++ "/resourceGroups/" ++ G)) := by
  have hcont : pyContains
      ("/subscriptions/" ++ S ++ "/resourceGroups/" ++ G ++ "/providers/" ++ R) "providers"
      = true := by
    unfold pyContains
    rw [show (("/subscriptions/" ++ S ++ "/resourceGroups/" ++ G ++ "/providers/" ++ R).data
          : List Char) =
        ((('/' :: "subscriptions".data) ++
          (('/' :: S.data) ++ (('/' :: "resourceGroups".data) ++ ('/' :: G.data)))) ++ ['/']) ++
          ("providers".data ++ ('/' :: R.data))
      from by rw [idChars]; simp [List.append_assoc, List.cons_append]]
    exact subOccurs_append _ _ _
  have hsplit : pySplitChars ("/providers".data)
      ("/subscriptions/" ++ S ++ "/resourceGroups/" ++ G ++ "/providers/" ++ R).data =
      (('/' :: "subscriptions".data) ++
        (('/' :: S.data) ++ (('/' :: "resourceGroups".data) ++ ('/' :: G.data)))) ::
        pySplitChars ("/providers".data) ('/' :: R.data) := by
    rw [idChars]
    exact pySplitChars_boundary ("/providers".data) (by decide) _ _
      (no_early_providers ('/' :: R.data) hS hG hpS hpG)
  unfold armResourcegroup
  rw [hcont]
  simp only [if_true]
  unfold pySplit
  rw [hsplit]
  simp only [List.map_cons]
  rw [show (⟨('/' :: "subscriptions".data) ++
      (('/' :: S.data) ++ (('/' :: "resourceGroups".data) ++ ('/' :: G.data)))⟩ : String) =
      "/subscriptions/" ++ S ++ "/resourceGroups/" ++ G from by
    rw [← prefixChars]]
  rfl

theorem armSubscription_structured (S G R : String) (hS : '/' ∉ S.data) :
    armSubscription ("/subscriptions/" ++ S ++ "/resourceGroups/" ++ G ++ "/providers/" ++ R) =
      Except.ok (some S) := by
  have hdata : (("/subscriptions/" ++ S ++ "/resourceGroups/" ++ G ++ "/providers/" ++ R).data
      : List Char) =
      '/' :: ("subscriptions".data ++ ('/' :: (S.data ++ ('/' ::
        ("resourceGroups".data ++ ('/' :: (G.data ++ ('/' :: ("providers".data ++
          ('/' :: R.data)))))))))) := by
    rw [idChars]
    rw [show ("/providers".data : List Char) = '/' :: "providers".data from rfl]
    simp [List.append_assoc, List.cons_append]
  have hcont : pyContains
      ("/subscriptions/" ++ S ++ "/resourceGroups/" ++ G ++ "/providers/" ++ R) "subscriptions"
      = true := by
    unfold pyContains
    rw [hdata]
    rw [show ('/' : Char) :: ("subscriptions".data ++ ('/' :: (S.data ++ ('/' ::
        ("resourceGroups".data ++ ('/' :: (G.data ++ ('/' :: ("providers".data ++
          ('/' :: R.data)))))))))) =
        ['/'] ++ ("subscriptions".data ++ ('/' :: (S.data ++ ('/' ::
        ("resourceGroups".data ++ ('/' :: (G.data ++ ('/' :: ("providers".data ++
          ('/' :: R.data)))))))))) from rfl]
    exact subOccurs_append _ _ _
  have hsplit : ∃ rest, pySplitChars ['/']
      ("/subscriptions/" ++ S ++ "/resourceGroups/" ++ G ++ "/providers/" ++ R).data =
      [] :: "subscriptions".data :: S.data :: rest := by
    rw [hdata]
    have h0 := pySplitChars_char '/' []
      ("subscriptions".data ++ ('/' :: (S.data ++ ('/' ::
        ("resourceGroups".data ++ ('/' :: (G.data ++ ('/' :: ("providers".data ++
          ('/' :: R.data)))))))))) (by simp)
    have h1 := pySplitChars_char '/' ("subscriptions".data)
      (S.data ++ ('/' :: ("resourceGroups".data ++ ('/' :: (G.data ++ ('/' ::
        ("providers".data ++ ('/' :: R.data)))))))) (by decide)
    have h2 := pySplitChars_char '/' S.data
      ("resourceGroups".data ++ ('/' :: (G.data ++ ('/' :: ("providers".data ++
        ('/' :: R.data)))))) hS
    simp only [List.nil_append, List.append_assoc, List.singleton_append,
      List.cons_append] at h0 h1 h2 ⊢
    rw [h0, h1, h2]
    exact ⟨_, rfl⟩
  obtain ⟨rest, hsplit⟩ := hsplit
  unfold armSubscription
  rw [hcont]
  simp only [if_true]
  unfold pySplit
  rw [show ("/".data : List Char) = ['/'] from rfl, hsplit]
  simp only [List.map_cons]
  rw [string_mk_data S]
  rfl

theorem aadRelationships_ok (id : String) (l : List String) (owners members : List String)
    (hs : List RelItem) :
    aadRelationships id (some l) owners members (Except.ok hs) =
      Except.ok
        ((owners.map fun owner =>
            RelItem.rel ⟨id, l, owner, ["AADOBJECT"], RelationLabels.Owns, Option.none⟩) ++
          (members.map fun member =>
            RelItem.rel ⟨member, ["AADOBJECT"], id, l, RelationLabels.MemberOf, Option.none⟩) ++
          hs) := by
  unfold aadRelationships
  rw [mapMEx_ok
      (fun owner => Except.map RelItem.rel
        (mkRelationship (PyVal.str id) (some l) (PyVal.str owner) aadObjectLabels
          RelationLabels.Owns Option.none))
      (fun owner =>
        RelItem.rel ⟨id, l, owner, ["AADOBJECT"], RelationLabels.Owns, Option.none⟩)
      owners (fun a _ => rfl),
    mapMEx_ok
      (fun member => Except.map RelItem.rel
        (mkRelationship (PyVal.str member) aadObjectLabels (PyVal.str id) (some l)
          RelationLabels.MemberOf Option.none))
      (fun member =>
        RelItem.rel ⟨member, ["AADOBJECT"], id, l, RelationLabels.MemberOf, Option.none⟩)
      members (fun a _ => rfl)]
  rfl

theorem armConstruct_contains (id : String) (l : List String) (xfields : List String)
    (props : Option (List (String × PyVal))) (hs : List RelItem) (rg : String)
    (hrg : armResourcegroup id = Except.ok (some rg)) :
    armConstruct id (some l) true xfields props (Except.ok hs) =
      Except.ok ⟨xdictBuild xfields props,
        RelItem.rel ⟨rg, ["RESOURCEGROUP", "ARMRESOURCE"], id, l,
          RelationLabels.Contains, Option.none⟩ :: hs⟩ := by
  unfold armConstruct
  rw [hrg]
  rfl

theorem armConstruct_no_providers (id : String) (selfLbl : Option (List String))
    (xfields : List String) (props : Option (List (String × PyVal)))
    (hook : Except PyErr (List RelItem))
    (h : pyContains id "providers" = false) :
    armConstruct id selfLbl true xfields props hook =
      Except.error PyErr.validationError := by
  unfold armConstruct armResourcegroup
  rw [h]
  rfl

theorem armConstruct_noMap (id : String) (selfLbl : Option (List String))
    (xfields : List String) (props : Option (List (String × PyVal)))
    (hs : List RelItem) :
    armConstruct id selfLbl false xfields props (Except.ok hs) =
      Except.ok ⟨xdictBuild xfields props, hs⟩ := rfl

theorem armResourcegroup_total (id : String) :
    ∃ v, armResourcegroup id = Except.ok v := by
  unfold armResourcegroup
  cases hc : pyContains id "providers" with
  | false => exact ⟨Option.none, by rw [if_neg Bool.false_ne_true]⟩
  | true =>
    obtain ⟨h0, t0, heq⟩ :=
      pySplitGo_ne_nil ("/providers".data) id.data.length id.data []
    refine ⟨some ⟨h0⟩, ?_⟩
    rw [if_pos rfl]
    unfold pySplit pySplitChars
    rw [heq]
    rfl

theorem armSubscription_none (id : String)
    (h : pyContains id "subscriptions" = false) :
    armSubscription id = Except.ok Option.none := by
  unfold armSubscription
  rw [h, if_neg Bool.false_ne_true]

theorem armResourcegroup_none (id : String)
    (h : pyContains id "providers" = false) :
    armResourcegroup id = Except.ok Option.none := by
  unfold armResourcegroup
  rw [h, if_neg Bool.false_ne_true]

theorem keyVaultHook_err (id : String) (props : Option (List (String × PyVal)))
    (hprops : props = Option.none ∨
      ∃ m, props = some m ∧ m.lookup "accessPolicies" = Option.none) :
    keyVaultHook id props = Except.error PyErr.attributeError := by
  rcases hprops with rfl | ⟨m, rfl, hl⟩
  · rfl
  · simp only [keyVaultHook]
    rw [hl]

theorem keyVaultConstruct_err (id : String) (props : Option (List (String × PyVal)))
    (hprops : props = Option.none ∨
      ∃ m, props = some m ∧ m.lookup "accessPolicies" = Option.none) :
    ∃ e, keyVaultConstruct id props = Except.error e := by
  have hkh := keyVaultHook_err id props hprops
  obtain ⟨v, hrg⟩ := armResourcegroup_total id
  cases v with
  | none =>
    refine ⟨PyErr.validationError, ?_⟩
    unfold keyVaultConstruct armConstruct
    rw [hrg]
    rfl
  | some rg =>
    refine ⟨PyErr.attributeError, ?_⟩
    unfold keyVaultConstruct armConstruct
    rw [hrg, hkh]
    rfl

theorem lookup_append_of_none {d : List (String × PyVal)} (e : List (String × PyVal))
    (k : String) (h : d.lookup k = Option.none) : (d ++ e).lookup k = e.lookup k := by
  induction d with
  | nil => rfl
  | cons a t ih =>
    obtain ⟨a1, a2⟩ := a
    by_cases hka : (k == a1) = true
    · simp [List.lookup, hka] at h
    · simp only [List.lookup, hka] at h ⊢
      exact ih h

theorem lookup_append_of_some {d : List (String × PyVal)} (e : List (String × PyVal))
    (k : String) (v : PyVal) (h : d.lookup k = some v) : (d ++ e).lookup k = some v := by
  induction d with
  | nil => simp [List.lookup] at h
  | cons a t ih =>
    obtain ⟨a1, a2⟩ := a
    by_cases hka : (k == a1) = true
    · simp only [List.lookup, hka] at h ⊢
      exact h
    · simp only [List.lookup, hka] at h ⊢
      exact ih h

theorem lookup_map_overwrite_self (d : List (String × PyVal)) (k : String) (v : PyVal)
    (hs : (d.lookup k).isSome = true) :
    ((d.map fun kv => if kv.1 = k then (k, v) else kv).lookup k) = some v := by
  induction d with
  | nil => simp [List.lookup] at hs
  | cons a t ih =>
    obtain ⟨a1, a2⟩ := a
    by_cases hak : a1 = k
    · subst hak
      simp only [List.map_cons, if_pos rfl]
      simp [List.lookup]
    · have hka : (k == a1) = false := beq_eq_false_iff_ne.mpr fun h => hak h.symm
      simp only [List.map_cons]
      rw [if_neg hak]
      simp only [List.lookup, hka] at hs ⊢
      exact ih hs

theorem lookup_map_overwrite_other (d : List (String × PyVal)) (k2 : String) (v2 : PyVal)
    (k : String) (hne : (k == k2) = false) :
    ((d.map fun kv => if kv.1 = k2 then (k2, v2) else kv).lookup k) = d.lookup k := by
  induction d with
  | nil => rfl
  | cons a t ih =>
    obtain ⟨a1, a2⟩ := a
    by_cases hak : a1 = k2
    · subst hak
      simp only [List.map_cons, if_pos rfl]
      simp only [List.lookup, hne]
      exact ih
    · simp only [List.map_cons, if_neg hak]
      by_cases hka : (k == a1) = true
      · simp only [List.lookup, hka]
      · simp only [List.lookup, hka]
        exact ih

theorem dictSet_lookup_self (d : List (String × PyVal)) (k : String) (v : PyVal) :
    (dictSet d k v).lookup k = some v := by
  unfold dictSet
  by_cases hs : (d.lookup k).isSome = true
  · rw [if_pos hs]
    exact lookup_map_overwrite_self d k v hs
  · rw [if_neg hs]
    have hnone : d.lookup k = Option.none := by
      cases h : d.lookup k with
      | none => rfl
      | some w => rw [h] at hs; simp at hs
    rw [lookup_append_of_none _ _ hnone]
    simp [List.lookup]

theorem dictSet_lookup_other (d : List (String × PyVal)) (k2 : String) (v2 : PyVal)
    (k : String) (hne : (k == k2) = false) :
    (dictSet d k2 v2).lookup k = d.lookup k := by
  unfold dictSet
  by_cases hs : (d.lookup k2).isSome = true
  · rw [if_pos hs]
    exact lookup_map_overwrite_other d k2 v2 k hne
  · rw [if_neg hs]
    cases h : d.lookup k with
    | some v => rw [lookup_append_of_some _ _ _ h]
    | none =>
      rw [lookup_append_of_none _ _ h]
      simp [List.lookup, hne]

theorem foldl_xstep_frozen (m : List (String × PyVal)) :
    ∀ (t : List String) (d : List (String × PyVal)) (k : String),
      k ∉ t.map lastSegment →
      ((t.foldl (fun d f =>
          dictSet d (lastSegment f) ((pathEval m f).getD PyVal.none)) d).lookup k)
        = d.lookup k := by
  intro t
  induction t with
  | nil => intro d k _; rfl
  | cons g t ih =>
    intro d k hk
    simp only [List.foldl_cons]
    rw [ih _ k (fun hmem => hk (by simp [hmem]))]
    apply dictSet_lookup_other
    exact beq_eq_false_iff_ne.mpr fun h => hk (by simp [h])

theorem foldl_xstep_mem (m : List (String × PyVal)) :
    ∀ (t : List String) (d : List (String × PyVal)) (f : String),
      f ∈ t → (t.map lastSegment).Nodup →
      ((t.foldl (fun d f =>
          dictSet d (lastSegment f) ((pathEval m f).getD PyVal.none)) d).lookup (lastSegment f))
        = some ((pathEval m f).getD PyVal.none) := by
  intro t
  induction t with
  | nil => intro d f hf _; cases hf
  | cons g t ih =>
    intro d f hf hnd
    simp only [List.map_cons, List.nodup_cons] at hnd
    simp only [List.foldl_cons]
    rcases List.mem_cons.mp hf with rfl | hmem
    · rw [foldl_xstep_frozen m t _ _ hnd.1]
      exact dictSet_lookup_self d _ _
    · exact ih _ f hmem hnd.2

theorem xdictBuild_lookup (xfields : List String) (m : List (String × PyVal))
    (f : String) (hf : f ∈ xfields) (hnd : (xfields.map lastSegment).Nodup) :
    (xdictBuild xfields (some m)).lookup (lastSegment f) =
      some ((pathEval m f).getD PyVal.none) := by
  simp only [xdictBuild]
  have hxne : ¬ xfields = [] := by rintro rfl; cases hf
  rw [if_neg hxne]
  exact foldl_xstep_mem m xfields [] f hf hnd

theorem lookup_map_union (base xd : List (String × PyVal)) (k : String) :
    ((base.map fun kv => (kv.1, ((xd.lookup kv.1).getD kv.2))).lookup k)
      = (base.lookup k).map fun b0 => (xd.lookup k).getD b0 := by
  induction base with
  | nil => rfl
  | cons a t ih =>
    obtain ⟨a1, a2⟩ := a
    by_cases hka : (k == a1) = true
    · have hk : k = a1 := eq_of_beq hka
      subst hk
      simp [List.lookup, hka]
    · simp only [List.map_cons, List.lookup, hka]
      exact ih

theorem lookup_filter_notin (xd base : List (String × PyVal)) (k : String)
    (hb : base.lookup k = Option.none) :
    ((xd.filter fun kv => (base.lookup kv.1).isNone).lookup k) = xd.lookup k := by
  induction xd with
  | nil => rfl
  | cons a t ih =>
    obtain ⟨a1, a2⟩ := a
    by_cases hka : (k == a1) = true
    · have hk : k = a1 := eq_of_beq hka
      subst hk
      have hkeep : ((base.lookup k).isNone : Bool) = true := by rw [hb]; rfl
      simp [List.filter, hkeep, List.lookup, hka]
    · cases hpa : ((base.lookup a1).isNone : Bool) with
      | true =>
        simp only [List.filter, hpa, List.lookup, hka]
        exact ih
      | false =>
        simp only [List.filter, hpa]
        rw [ih]
        simp only [List.lookup, hka]

theorem armNode_lookup (base xd : List (String × PyVal)) (k : String) (v : PyVal)
    (h : xd.lookup k = some v) : (armNode base xd).lookup k = some v := by
  unfold armNode dictUnion
  cases hb : base.lookup k with
  | some b0 =>
    have hm := lookup_map_union base xd k
    rw [hb, h] at hm
    exact lookup_append_of_some _ _ _ hm
  | none =>
    have hm := lookup_map_union base xd k
    rw [hb] at hm
    rw [lookup_append_of_none _ _ (by simpa using hm)]
    rw [lookup_filter_notin xd base k hb]
    exact h

theorem foldl_tags_acc : ∀ (l : List (String × String)) (acc : List String),
    l.foldl (fun acc kv => acc ++ [kv.1, kv.2]) acc
      = acc ++ l.foldl (fun acc kv => acc ++ [kv.1, kv.2]) [] := by
  intro l
  induction l with
  | nil => intro acc; simp
  | cons a t ih =>
    intro acc
    simp only [List.foldl_cons, List.nil_append]
    rw [ih (acc ++ [a.1, a.2]), ih [a.1, a.2]]
    simp [List.append_assoc]

theorem tagsFlatten_cons (a : String × String) (t : List (String × String)) :
    tagsFlatten (a :: t) = a.1 :: a.2 :: tagsFlatten t := by
  unfold tagsFlatten
  simp only [List.foldl_cons, List.nil_append]
  rw [foldl_tags_acc t [a.1, a.2]]
  rfl

theorem tagsFlatten_length (l : List (String × String)) :
    (tagsFlatten l).length = 2 * l.length := by
  induction l with
  | nil => rfl
  | cons a t ih =>
    rw [tagsFlatten_cons]
    simp [ih]
    omega

theorem pairUp_tagsFlatten (l : List (String × String)) :
    pairUp (tagsFlatten l) = l := by
  induction l with
  | nil => rfl
  | cons a t ih =>
    rw [tagsFlatten_cons]
    simp only [pairUp, ih]

theorem perm_lookup {l1 l2 : List (String × String)} (hp : l1.Perm l2)
    (hnd : (l1.map Prod.fst).Nodup) (k : String) :
    l1.lookup k = l2.lookup k := by
  induction hp with
  | nil => rfl
  | cons a hp ih =>
    obtain ⟨a1, a2⟩ := a
    simp only [List.map_cons, List.nodup_cons] at hnd
    by_cases hka : (k == a1) = true
    · simp only [List.lookup, hka]
    · simp only [List.lookup, hka]
      exact ih hnd.2
  | swap a b t =>
    obtain ⟨a1, a2⟩ := a
    obtain ⟨b1, b2⟩ := b
    simp only [List.map_cons, List.nodup_cons, List.mem_cons] at hnd
    have hne : b1 ≠ a1 := fun h => hnd.1 (Or.inl h)
    by_cases hka : (k == a1) = true
    · have hk : k = a1 := eq_of_beq hka
      have hkb : (k == b1) = false :=
        beq_eq_false_iff_ne.mpr fun h => hne (h ▸ hk ▸ rfl)
      simp only [List.lookup, hka, hkb]
    · by_cases hkb : (k == b1) = true
      · simp only [List.lookup, hka, hkb]
      · simp only [List.lookup, hka, hkb]
  | trans h1 h2 ih1 ih2 =>
    rw [ih1 hnd]
    exact ih2 (((h1.map Prod.fst).nodup_iff).mp hnd)

theorem mapMEx_policies (id : String) (pols : List (String × List (String × PyVal))) :
    mapMEx (fun pol => do
      let oid ← match pyGetAttr pol "objectId" with
        | some v => pure v
        | Option.none => Except.error PyErr.attributeError
      let perms ← match pyGetAttr pol "permissions" with
        | some v => pure v
        | Option.none => Except.error PyErr.attributeError
      (mkRelationship oid aadObjectLabels (PyVal.str id) keyVaultLabels
          RelationLabels.HasAccessPolicies (some perms)).map RelItem.rel)
      (pols.map encodePolicy) =
      Except.ok (pols.map fun pol =>
        RelItem.rel ⟨pol.1, ["AADOBJECT"], id, ["KEYVAULT", "ARMRESOURCE"],
          RelationLabels.HasAccessPolicies, some pol.2⟩) := by
  induction pols with
  | nil => rfl
  | cons p t ih =>
    obtain ⟨oid, perms⟩ := p
    simp only [List.map_cons, mapMEx]
    rw [ih]
    rfl

theorem keyVaultHook_policies (id : String) (m : List (String × PyVal))
    (pols : List (String × List (String × PyVal)))
    (hm : m.lookup "accessPolicies" = some (PyVal.list (pols.map encodePolicy))) :
    keyVaultHook id (some m) =
      Except.ok (pols.map fun pol =>
        RelItem.rel ⟨pol.1, ["AADOBJECT"], id, ["KEYVAULT", "ARMRESOURCE"],
          RelationLabels.HasAccessPolicies, some pol.2⟩) := by
  simp only [keyVaultHook]
  rw [hm]
  exact mapMEx_policies id pols

theorem mkRelationship_ok_inv {src : PyVal} {srcLbl : Option (List String)} {tgt : PyVal}
    {tgtLbl : Option (List String)} {rel : RelationLabels} {props : Option PyVal}
    {r : Relationship}
    (h : mkRelationship src srcLbl tgt tgtLbl rel props = Except.ok r) :
    pyStrCoerce src = Except.ok r.source ∧ pyStrCoerce tgt = Except.ok r.target := by
  unfold mkRelationship at h
  cases hs : pyStrCoerce src with
  | error e => rw [hs] at h; cases h
  | ok s =>
    rw [hs] at h
    cases ht : pyStrCoerce tgt with
    | error e => rw [ht] at h; cases h
    | ok t =>
      rw [ht] at h
      cases srcLbl with
      | none => cases h
      | some sl =>
        cases tgtLbl with
        | none => cases h
        | some tl =>
          cases h
          exact ⟨rfl, rfl⟩

/-! ## The claims -/

/-- C1, counterexample: an AAD group with id `g1` and owners `["o1"]`
produces the single `Owns` item `{source: "g1", target: "o1"}` (plus the
default-hook item), and no item of the output is an `Owns` relationship
with `source = "o1"` and `target = "g1"` as the claim requires. -/
theorem C1_counterexample :
    aadRelationships "g1" (pyLabels "AADGroup" "AADObject") ["o1"] [] defaultHook =
      Except.ok [RelItem.rel ⟨"g1", ["AADGROUP", "AADOBJECT"], "o1", ["AADOBJECT"],
        RelationLabels.Owns, Option.none⟩, RelItem.emptyList] ∧
    (∀ it ∈ [RelItem.rel (⟨"g1", ["AADGROUP", "AADOBJECT"], "o1", ["AADOBJECT"],
        RelationLabels.Owns, Option.none⟩ : Relationship), RelItem.emptyList],
      ∀ r : Relationship, it = RelItem.rel r →
        ¬(r.relation = RelationLabels.Owns ∧ r.source = "o1" ∧ r.target = "g1")) := by
  refine ⟨rfl, ?_⟩
  intro it hit r hr hcon
  rcases List.mem_cons.mp hit with rfl | hit2
  · obtain rfl : (⟨"g1", ["AADGROUP", "AADOBJECT"], "o1", ["AADOBJECT"],
        RelationLabels.Owns, Option.none⟩ : Relationship) = r := by
      injection hr
    exact absurd hcon.2.1 (by decide)
  · rcases List.mem_singleton.mp hit2 with rfl
    exact RelItem.noConfusion hr

/-- C1, amended: construction emits one `Owns` relationship per owner id
with `source` = the instance's own id and `target` = that owner id (the
reverse of the claimed direction), followed by the `MemberOf` edges and the
hook items. -/
theorem C1_owns_direction (id : String) (l : List String) (owners members : List String)
    (hs : List RelItem) :
    aadRelationships id (some l) owners members (Except.ok hs) =
      Except.ok
        ((owners.map fun owner =>
            RelItem.rel ⟨id, l, owner, ["AADOBJECT"], RelationLabels.Owns, Option.none⟩) ++
          (members.map fun member =>
            RelItem.rel ⟨member, ["AADOBJECT"], id, l, RelationLabels.MemberOf, Option.none⟩) ++
          hs) :=
  aadRelationships_ok id l owners members hs

/-- C2, counterexample: an opted-in ARM resource whose id `"x"` has no
`providers` segment has a null resourcegroup, but construction fails with a
validation error instead of succeeding. -/
theorem C2_counterexample :
    armResourcegroup "x" = Except.ok Option.none ∧
    armConstruct "x" storageAccountLabels true storageAccountXFields Option.none defaultHook =
      Except.error PyErr.validationError :=
  ⟨rfl, rfl⟩

/-- C2, amended: for every ARM resource instance opted into resource-group
mapping whose id contains no `providers` substring, `resourcegroup` resolves
to null and construction fails with a validation error while emitting the
`Contains` relationship (whose required `source` is null), rather than
succeeding with no edge. -/
theorem C2_rg_miss_fails (id : String) (selfLbl : Option (List String))
    (xfields : List String) (props : Option (List (String × PyVal)))
    (hook : Except PyErr (List RelItem))
    (h : pyContains id "providers" = false) :
    armResourcegroup id = Except.ok Option.none ∧
    armConstruct id selfLbl true xfields props hook = Except.error PyErr.validationError :=
  ⟨armResourcegroup_none id h, armConstruct_no_providers id selfLbl xfields props hook h⟩

/-- C2, witness for the amended theorem at id `"x"`. -/
theorem C2_rg_miss_fails_witness :
    armResourcegroup "x" = Except.ok Option.none ∧
    armConstruct "x" storageAccountLabels true storageAccountXFields Option.none
      (Except.ok [RelItem.emptyList]) = Except.error PyErr.validationError :=
  C2_rg_miss_fails "x" storageAccountLabels storageAccountXFields Option.none
    (Except.ok [RelItem.emptyList]) (by decide)

/-- C3, counterexample: the id `"subscriptions"` contains the substring
`subscriptions` but has fewer than three `/`-separated parts, so the
`subscription` accessor raises an `IndexError` instead of returning null. -/
theorem C3_counterexample :
    armSubscription "subscriptions" = Except.error PyErr.indexError := rfl

/-- C3, amended: `resourcegroup` is total (it never raises), both accessors
return null when the respective substring (`subscriptions` / `providers`)
is absent from the id, but `subscription` is not total: it can raise an
`IndexError` when the substring is present. -/
theorem C3_accessor_totality (id : String) :
    (pyContains id "subscriptions" = false →
      armSubscription id = Except.ok Option.none) ∧
    (pyContains id "providers" = false →
      armResourcegroup id = Except.ok Option.none) ∧
    (∃ v, armResourcegroup id = Except.ok v) :=
  ⟨armSubscription_none id, armResourcegroup_none id, armResourcegroup_total id⟩

/-- C3, witness for the amended theorem at id `"x"`. -/
theorem C3_accessor_totality_witness :
    armSubscription "x" = Except.ok Option.none ∧
    armResourcegroup "x" = Except.ok Option.none ∧
    (∃ v, armResourcegroup "x" = Except.ok v) :=
  ⟨(C3_accessor_totality "x").1 (by decide), (C3_accessor_totality "x").2.1 (by decide),
    (C3_accessor_totality "x").2.2⟩

/-- C4: the default relationship-contribution hook is `yield []`, which
contributes one item — a plain empty Python list, not a `Relationship` — so
an AAD user with no owners and no members still ends construction with that
non-relationship item in its `_relationships` sequence, contradicting the
claim (and the hook's own `Iterator[Relationship]` annotation) that the
default hook contributes no relationships. -/
theorem C4_default_hook_item :
    defaultHook = Except.ok [RelItem.emptyList] ∧
    aadRelationships "u1" (pyLabels "AADUser" "AADObject") [] [] defaultHook =
      Except.ok [RelItem.emptyList] ∧
    (∀ r : Relationship, RelItem.emptyList ≠ RelItem.rel r) :=
  ⟨rfl, rfl, fun _ h => RelItem.noConfusion h⟩

/-- C5, counterexample: a `Relationship` with an empty `source` string
validates successfully, so source ids are not guaranteed non-empty. -/
theorem C5_counterexample :
    ∃ r : Relationship,
      mkRelationship (PyVal.str "") (pyLabels "AADGroup" "AADObject") (PyVal.str "t")
        aadObjectLabels RelationLabels.Owns Option.none = Except.ok r ∧
      r.source = "" :=
  ⟨⟨"", ["AADGROUP", "AADOBJECT"], "t", ["AADOBJECT"], RelationLabels.Owns, Option.none⟩,
    rfl, rfl⟩

/-- C5, amended: for every successfully constructed `Relationship`, the
`source` and `target` inputs were not null and coerce to the stored string
ids; the ids may however be empty strings. -/
theorem C5_rel_ids_not_null (src : PyVal) (srcLbl : Option (List String)) (tgt : PyVal)
    (tgtLbl : Option (List String)) (rel : RelationLabels) (props : Option PyVal)
    (r : Relationship)
    (h : mkRelationship src srcLbl tgt tgtLbl rel props = Except.ok r) :
    src ≠ PyVal.none ∧ tgt ≠ PyVal.none ∧
      pyStrCoerce src = Except.ok r.source ∧ pyStrCoerce tgt = Except.ok r.target := by
  have hinv := mkRelationship_ok_inv h
  refine ⟨?_, ?_, hinv.1, hinv.2⟩
  · rintro rfl
    exact Except.noConfusion hinv.1
  · rintro rfl
    exact Except.noConfusion hinv.2

/-- C5, witness for the amended theorem at a concrete relationship. -/
theorem C5_rel_ids_not_null_witness :
    PyVal.str "a" ≠ PyVal.none ∧ PyVal.str "b" ≠ PyVal.none ∧
      pyStrCoerce (PyVal.str "a") = Except.ok "a" ∧
      pyStrCoerce (PyVal.str "b") = Except.ok "b" :=
  C5_rel_ids_not_null (PyVal.str "a") (pyLabels "AADGroup" "AADObject") (PyVal.str "b")
    aadObjectLabels RelationLabels.Owns Option.none
    ⟨"a", ["AADGROUP", "AADOBJECT"], "b", ["AADOBJECT"], RelationLabels.Owns, Option.none⟩
    rfl

/-- C6, counterexample: a resource-group name may itself begin with
`providers`; for the id
`/subscriptions/S/resourceGroups/providersX/providers/...` the substring
split `id.split("/providers")[0]` cuts at the earlier occurrence inside
`/providersX`, so `resourcegroup` returns `/subscriptions/S/resourceGroups`
instead of the claimed `/subscriptions/S/resourceGroups/providersX`, and the
emitted `Contains` edge carries that truncated source. -/
theorem C6_counterexample :
    armResourcegroup ("/subscriptions/" ++ "S" ++ "/resourceGroups/" ++ "providersX" ++
        "/providers/" ++ "Microsoft.Storage/storageAccounts/acct")
      = Except.ok (some "/subscriptions/S/resourceGroups") ∧
    ("/subscriptions/S/resourceGroups" : String) ≠
      "/subscriptions/" ++ "S" ++ "/resourceGroups/" ++ "providersX" ∧
    armConstruct ("/subscriptions/" ++ "S" ++ "/resourceGroups/" ++ "providersX" ++
        "/providers/" ++ "Microsoft.Storage/storageAccounts/acct")
      (some ["STORAGEACCOUNT", "ARMRESOURCE"]) true storageAccountXFields Option.none
      (Except.ok [RelItem.emptyList]) =
      Except.ok ⟨[], [RelItem.rel ⟨"/subscriptions/S/resourceGroups",
        ["RESOURCEGROUP", "ARMRESOURCE"],
        "/subscriptions/" ++ "S" ++ "/resourceGroups/" ++ "providersX" ++
          "/providers/" ++ "Microsoft.Storage/storageAccounts/acct",
        ["STORAGEACCOUNT", "ARMRESOURCE"], RelationLabels.Contains, Option.none⟩,
        RelItem.emptyList]⟩ :=
  ⟨rfl, by decide, rfl⟩

/-- C6, amended: for an ARM resource opted into resource-group mapping whose
id is `/subscriptions/S/resourceGroups/G/providers/...` where `S` and `G`
are slash-free segments that do not begin with `providers`, `subscription`
returns `S`, `resourcegroup` returns `/subscriptions/S/resourceGroups/G`,
and construction succeeds emitting exactly one `Contains` relationship with
that source and the full id as target (provided the type hook contributes no
`Contains` items, which no concrete hook does).  The segment restrictions
are forced by the substring-based split: a segment beginning with
`providers` creates an earlier `/providers` occurrence and the returned
prefix is truncated there (see the counterexample). -/
theorem C6_contains_edge (S G R : String) (l : List String) (xfields : List String)
    (props : Option (List (String × PyVal))) (hs : List RelItem)
    (hS : '/' ∉ S.data) (hG : '/' ∉ G.data)
    (hpS : ¬ ("providers".data : List Char) <+: S.data)
    (hpG : ¬ ("providers".data : List Char) <+: G.data)
    (hhs : ∀ it ∈ hs, it.isContains = false) :
    armSubscription ("/subscriptions/" ++ S ++ "/resourceGroups/" ++ G ++ "/providers/" ++ R)
      = Except.ok (some S) ∧
    armResourcegroup ("/subscriptions/" ++ S ++ "/resourceGroups/" ++ G ++ "/providers/" ++ R)
      = Except.ok (some ("/subscriptions/" ++ S ++ "/resourceGroups/" ++ G)) ∧
    ∃ b : ARMBuilt,
      armConstruct ("/subscriptions/" ++ S ++ "/resourceGroups/" ++ G ++ "/providers/" ++ R)
        (some l) true xfields props (Except.ok hs) = Except.ok b ∧
      b.rels.filter RelItem.isContains =
        [RelItem.rel ⟨"/subscriptions/" ++ S ++ "/resourceGroups/" ++ G,
          ["RESOURCEGROUP", "ARMRESOURCE"],
          "/subscriptions/" ++ S ++ "/resourceGroups/" ++ G ++ "/providers/" ++ R, l,
          RelationLabels.Contains, Option.none⟩] := by
  have hrg := armResourcegroup_structured S G R hS hG hpS hpG
  refine ⟨armSubscription_structured S G R hS, hrg, ?_⟩
  refine ⟨_, armConstruct_contains _ l xfields props hs _ hrg, ?_⟩
  have hnil : hs.filter RelItem.isContains = [] :=
    List.filter_eq_nil_iff.mpr fun a ha => by
      rw [hhs a ha]; exact Bool.false_ne_true
  have hfil : (RelItem.rel (⟨"/subscriptions/" ++ S ++ "/resourceGroups/" ++ G,
      ["RESOURCEGROUP", "ARMRESOURCE"],
      "/subscriptions/" ++ S ++ "/resourceGroups/" ++ G ++ "/providers/" ++ R, l,
      RelationLabels.Contains, Option.none⟩ : Relationship) :: hs).filter RelItem.isContains =
      [RelItem.rel ⟨"/subscriptions/" ++ S ++ "/resourceGroups/" ++ G,
        ["RESOURCEGROUP", "ARMRESOURCE"],
        "/subscriptions/" ++ S ++ "/resourceGroups/" ++ G ++ "/providers/" ++ R, l,
        RelationLabels.Contains, Option.none⟩] := by
    rw [List.filter_cons, hnil]
    simp [RelItem.isContains]
  exact hfil

/-- C6, witness at the spec's example id with a storage-account style
instance using the default hook. -/
theorem C6_contains_edge_witness :
    armSubscription ("/subscriptions/" ++ "S" ++ "/resourceGroups/" ++ "G" ++ "/providers/" ++
      "Microsoft.Storage/storageAccounts/acct") = Except.ok (some "S") ∧
    armResourcegroup ("/subscriptions/" ++ "S" ++ "/resourceGroups/" ++ "G" ++ "/providers/" ++
      "Microsoft.Storage/storageAccounts/acct")
      = Except.ok (some ("/subscriptions/" ++ "S" ++ "/resourceGroups/" ++ "G")) ∧
    ∃ b : ARMBuilt,
      armConstruct ("/subscriptions/" ++ "S" ++ "/resourceGroups/" ++ "G" ++ "/providers/" ++
          "Microsoft.Storage/storageAccounts/acct")
        (some ["STORAGEACCOUNT", "ARMRESOURCE"]) true storageAccountXFields Option.none
        (Except.ok [RelItem.emptyList]) = Except.ok b ∧
      b.rels.filter RelItem.isContains =
        [RelItem.rel ⟨"/subscriptions/" ++ "S" ++ "/resourceGroups/" ++ "G",
          ["RESOURCEGROUP", "ARMRESOURCE"],
          "/subscriptions/" ++ "S" ++ "/resourceGroups/" ++ "G" ++ "/providers/" ++
            "Microsoft.Storage/storageAccounts/acct",
          ["STORAGEACCOUNT", "ARMRESOURCE"],
          RelationLabels.Contains, Option.none⟩] :=
  C6_contains_edge "S" "G" "Microsoft.Storage/storageAccounts/acct"
    ["STORAGEACCOUNT", "ARMRESOURCE"] storageAccountXFields Option.none
    [RelItem.emptyList] (by decide) (by decide) (by decide) (by decide)
    (by intro it hit; rw [List.mem_singleton.mp hit]; rfl)

/-- C7: flattening a non-empty tag mapping with distinct keys yields the
alternating flat sequence, of even length `2 * n`, whose consecutive pairs
reconstruct exactly the original mapping, and whose reconstruction after any
reordering of the input has the same key lookups; an absent or empty mapping
normalizes to null, not an empty sequence. -/
theorem C7_tags_roundtrip (l : List (String × String)) (hne : l ≠ [])
    (hnd : (l.map Prod.fst).Nodup) :
    convert_to_list (some l) = some (tagsFlatten l) ∧
    (tagsFlatten l).length = 2 * l.length ∧
    pairUp (tagsFlatten l) = l ∧
    (∀ l2, l.Perm l2 → ∀ k, (pairUp (tagsFlatten l2)).lookup k = l.lookup k) ∧
    convert_to_list Option.none = Option.none ∧
    convert_to_list (some ([] : List (String × String))) = Option.none := by
  refine ⟨?_, tagsFlatten_length l, pairUp_tagsFlatten l, ?_, rfl, rfl⟩
  · cases l with
    | nil => exact absurd rfl hne
    | cons a t => rfl
  · intro l2 hp k
    rw [pairUp_tagsFlatten l2]
    exact (perm_lookup hp hnd k).symm

/-- C7, witness at the spec's example mapping. -/
theorem C7_tags_roundtrip_witness :
    convert_to_list (some [("a", "1"), ("b", "2")]) =
      some (tagsFlatten [("a", "1"), ("b", "2")]) ∧
    (tagsFlatten [("a", "1"), ("b", "2")]).length =
      2 * ([("a", "1"), ("b", "2")] : List (String × String)).length ∧
    pairUp (tagsFlatten [("a", "1"), ("b", "2")]) = [("a", "1"), ("b", "2")] ∧
    (∀ l2, ([("a", "1"), ("b", "2")] : List (String × String)).Perm l2 →
      ∀ k, (pairUp (tagsFlatten l2)).lookup k =
        ([("a", "1"), ("b", "2")] : List (String × String)).lookup k) ∧
    convert_to_list Option.none = Option.none ∧
    convert_to_list (some ([] : List (String × String))) = Option.none :=
  C7_tags_roundtrip [("a", "1"), ("b", "2")] (by decide) (by decide)

/-- C8: for the ARM resource types that declare extraction fields (key
vaults and storage accounts) and every declared path, construction succeeds
and stores the path's evaluation under its final segment in `__xdict__`: on
a miss the promoted field is null, and on a hit the resolved value is
visible in the node export under the final segment. -/
theorem C8_xfields_promotion (xf : List String)
    (hxf : xf = keyVaultXFields ∨ xf = storageAccountXFields)
    (m : List (String × PyVal)) (f : String) (hf : f ∈ xf)
    (selfLbl : Option (List String)) (id : String) (hs : List RelItem)
    (base : List (String × PyVal)) :
    armConstruct id selfLbl false xf (some m) (Except.ok hs) =
      Except.ok ⟨xdictBuild xf (some m), hs⟩ ∧
    (xdictBuild xf (some m)).lookup (lastSegment f) =
      some ((pathEval m f).getD PyVal.none) ∧
    (pathEval m f = Option.none →
      (xdictBuild xf (some m)).lookup (lastSegment f) = some PyVal.none) ∧
    (∀ v, pathEval m f = some v →
      (armNode base (xdictBuild xf (some m))).lookup (lastSegment f) = some v) := by
  have hnd : (xf.map lastSegment).Nodup := by
    rcases hxf with rfl | rfl <;> decide
  have hlk := xdictBuild_lookup xf m f hf hnd
  refine ⟨armConstruct_noMap id selfLbl xf (some m) hs, hlk, ?_, ?_⟩
  · intro hmiss
    rw [hlk, hmiss]
    rfl
  · intro v hv
    exact armNode_lookup base _ _ v (by rw [hlk, hv]; rfl)

/-- C8, witness: a key vault whose properties carry only `vaultUri`; the
declared path `vaultUri` is promoted with its value, and the other declared
paths are covered by the generic theorem. -/
theorem C8_xfields_promotion_witness :
    armConstruct "i" keyVaultLabels false keyVaultXFields
      (some [("vaultUri", PyVal.str "https://v")]) (Except.ok []) =
      Except.ok ⟨xdictBuild keyVaultXFields (some [("vaultUri", PyVal.str "https://v")]), []⟩ ∧
    (xdictBuild keyVaultXFields (some [("vaultUri", PyVal.str "https://v")])).lookup
      (lastSegment "vaultUri") =
      some ((pathEval [("vaultUri", PyVal.str "https://v")] "vaultUri").getD PyVal.none) ∧
    (pathEval [("vaultUri", PyVal.str "https://v")] "vaultUri" = Option.none →
      (xdictBuild keyVaultXFields (some [("vaultUri", PyVal.str "https://v")])).lookup
        (lastSegment "vaultUri") = some PyVal.none) ∧
    (∀ v, pathEval [("vaultUri", PyVal.str "https://v")] "vaultUri" = some v →
      (armNode [] (xdictBuild keyVaultXFields
        (some [("vaultUri", PyVal.str "https://v")]))).lookup (lastSegment "vaultUri") =
        some v) :=
  C8_xfields_promotion keyVaultXFields (Or.inl rfl) [("vaultUri", PyVal.str "https://v")]
    "vaultUri" (by decide) keyVaultLabels "i" [] []

/-- C9: a key vault whose `properties.accessPolicies` holds N well-formed
entries produces exactly N hook items, all of them `HasAccessPolicies`
relationships, the i-th having the i-th entry's principal object id as
source, the vault id as target, and that entry's permission mapping as edge
properties. -/
theorem C9_vault_policies (id : String) (m : List (String × PyVal))
    (pols : List (String × List (String × PyVal)))
    (hm : m.lookup "accessPolicies" = some (PyVal.list (pols.map encodePolicy))) :
    ∃ items, keyVaultHook id (some m) = Except.ok items ∧
      items.length = pols.length ∧
      (∀ it ∈ items, ∃ r, it = RelItem.rel r ∧
        r.relation = RelationLabels.HasAccessPolicies) ∧
      ∀ i (hi : i < pols.length),
        items[i]? = some (RelItem.rel ⟨(pols[i]).1, ["AADOBJECT"], id,
          ["KEYVAULT", "ARMRESOURCE"], RelationLabels.HasAccessPolicies,
          some (pols[i]).2⟩) := by
  refine ⟨_, keyVaultHook_policies id m pols hm, by simp, ?_, ?_⟩
  · intro it hit
    rcases List.mem_map.mp hit with ⟨pol, _, rfl⟩
    exact ⟨_, rfl, rfl⟩
  · intro i hi
    simp [List.getElem?_map, List.getElem?_eq_getElem hi]

/-- C9, witness: one policy entry with principal `oid1` and a one-key
permission mapping. -/
theorem C9_vault_policies_witness :
    ∃ items, keyVaultHook "v1"
      (some [("accessPolicies", PyVal.list
        ([("oid1", [("keys", PyVal.list [PyVal.str "get"])])].map encodePolicy))]) =
      Except.ok items ∧
      items.length =
        ([("oid1", [("keys", PyVal.list [PyVal.str "get"])])] :
          List (String × List (String × PyVal))).length ∧
      (∀ it ∈ items, ∃ r, it = RelItem.rel r ∧
        r.relation = RelationLabels.HasAccessPolicies) ∧
      ∀ i (hi : i < ([("oid1", [("keys", PyVal.list [PyVal.str "get"])])] :
          List (String × List (String × PyVal))).length),
        items[i]? = some (RelItem.rel
          ⟨(([("oid1", [("keys", PyVal.list [PyVal.str "get"])])] :
              List (String × List (String × PyVal)))[i]).1,
            ["AADOBJECT"], "v1", ["KEYVAULT", "ARMRESOURCE"],
            RelationLabels.HasAccessPolicies,
            some (([("oid1", [("keys", PyVal.list [PyVal.str "get"])])] :
              List (String × List (String × PyVal)))[i]).2⟩) :=
  C9_vault_policies "v1" [("accessPolicies", PyVal.list
      ([("oid1", [("keys", PyVal.list [PyVal.str "get"])])].map encodePolicy))]
    [("oid1", [("keys", PyVal.list [PyVal.str "get"])])] rfl

/-- C10: a key-vault record whose `properties` is absent, or whose
properties tree has no `accessPolicies` entry, fails construction with a
raised error (it does not succeed with zero `HasAccessPolicies` edges),
even though `properties` is an optional field. -/
theorem C10_vault_missing_policies_fails (id : String)
    (props : Option (List (String × PyVal)))
    (hprops : props = Option.none ∨
      ∃ m, props = some m ∧ m.lookup "accessPolicies" = Option.none) :
    ∃ e, keyVaultConstruct id props = Except.error e :=
  keyVaultConstruct_err id props hprops

/-- C10, witness: a key vault with a well-formed id and absent properties. -/
theorem C10_vault_missing_policies_fails_witness :
    ∃ e, keyVaultConstruct
      "/subscriptions/s/resourceGroups/g/providers/Microsoft.KeyVault/vaults/v"
      Option.none = Except.error e :=
  C10_vault_missing_policies_fails
    "/subscriptions/s/resourceGroups/g/providers/Microsoft.KeyVault/vaults/v"
    Option.none (Or.inl rfl)

end Stormspotter
